import Mathlib

/-!
Shallow embedding of the inventory-resolution and destination-scoping engine
of `cmd/skopeo/sync.go` (the `skopeo sync` command), together with theorems
settling the specification claims about it.

Conventions:
* Go strings are Lean `String`s; where character-level processing matters the
  model works on `List Char` so that every operation is a plain structural
  recursion.
* The Go `error` results become `Except String`; a Go runtime panic (nil
  pointer dereference) is modelled by an explicit `panicked` outcome.
* External collaborators (`regexp.Compile`, `docker.GetRepositoryTags`,
  `docker.ParseReference`, `os.Stat`, ...) are modelled as an explicit
  environment of function-valued parameters describing their observable
  results; the control flow around them is translated from the source.
-/

set_option autoImplicit false

namespace SkopeoSync

/-! ## Basic data model (types.OptionalBool, configs, system context) -/

/-- Model of `types.OptionalBool` from containers/image: a tri-state
boolean whose zero value is `undefined`. -/
inductive OptionalBool where
  | undefined
  | optTrue
  | optFalse
  deriving DecidableEq, Repr

/-- Model of `types.NewOptionalBool`. -/
def newOptionalBool (b : Bool) : OptionalBool :=
  if b then .optTrue else .optFalse

/-- Model of `types.DockerAuthConfig` (username/password pair). -/
structure DockerAuthConfig where
  username : String
  password : String
  deriving DecidableEq, Repr

/-- Model of `tlsVerifyConfig` (sync.go lines 47-49): wraps the tri-state
`skip` flag controlling TLS verification. -/
structure tlsVerifyConfig where
  skip : OptionalBool
  deriving DecidableEq, Repr

/-- Model of `tlsVerifyConfig.UnmarshalYAML` together with the YAML decoding
rule that a custom unmarshaler only runs when the key is present: for an
absent `tls-verify` key the field keeps its zero value
(`OptionalBool.undefined`); for a present boolean `b` the unmarshaler sets
`skip := NewOptionalBool(!b)` (sync.go lines 104-112). -/
def unmarshalTLSVerify : Option Bool → tlsVerifyConfig
  | none => ⟨OptionalBool.undefined⟩
  | some b => ⟨newOptionalBool (!b)⟩

/-- The scalar-or-other YAML values that can appear as elements of an
explicit tag list (`tags.([]interface{})` element types in sync.go lines
288-298). `floatv` carries the `%v` rendering of the float64, which is the
only use the code makes of the value. `other` stands for every non-scalar
element type (bool, map, sequence, ...). -/
inductive YamlVal where
  | str (s : String)
  | intv (n : Int)
  | floatv (rendered : String)
  | other
  deriving DecidableEq, Repr

/-- Coercion of a scalar element to a string, `fmt.Sprintf("%v", tagValue)`
in sync.go line 290; `none` for element types hit by the `default` branch. -/
def coerceVal : YamlVal → Option String
  | .str s => some s
  | .intv n => some (toString n)
  | .floatv r => some r
  | .other => none

/-- The tag specification attached to one image name in the manifest
(`cfg.Images` values, `interface{}` in sync.go line 54): an explicit list
(also covering `nil`, modelled as the empty list, and `[]string`), a regex
string, or any other type (hit by the `default` branch of the type switch). -/
inductive TagSpec where
  | list (l : List YamlVal)
  | regex (pattern : String)
  | other
  deriving DecidableEq, Repr

/-- Model of `registrySyncConfig` (sync.go lines 53-58). The `images` map is
modelled as an association list in some iteration order (Go map iteration
order is unspecified). -/
structure registrySyncConfig where
  images : List (String × TagSpec)
  credentials : DockerAuthConfig
  tlsVerify : tlsVerifyConfig
  certDir : String
  deriving DecidableEq, Repr

/-- Model of `types.SystemContext` restricted to the five fields the sync
code overrides (sync.go lines 275-279); `rest` stands for all remaining
fields of the base context, which the code never touches. -/
structure SystemContext where
  dockerCertPath : String
  dockerDaemonCertPath : String
  dockerDaemonInsecureSkipTLSVerify : Bool
  dockerInsecureSkipTLSVerify : OptionalBool
  dockerAuthConfig : Option DockerAuthConfig
  rest : Nat
  deriving DecidableEq, Repr

/-- The per-registry override block, sync.go lines 275-279: the five
assignments through `serverCtx` applied to the (by-value) copy of the base
context. -/
def applyOverrides (cfg : registrySyncConfig) (c : SystemContext) : SystemContext :=
  { c with
    dockerCertPath := cfg.certDir
    dockerDaemonCertPath := cfg.certDir
    dockerDaemonInsecureSkipTLSVerify := cfg.tlsVerify.skip = OptionalBool.optTrue
    dockerInsecureSkipTLSVerify := cfg.tlsVerify.skip
    dockerAuthConfig := some cfg.credentials }

/-- True when the context asks for TLS verification to be skipped on either
the registry or the daemon transport; `false` therefore means verification
is enforced. -/
def requestsSkipTLS (c : SystemContext) : Bool :=
  (c.dockerInsecureSkipTLSVerify = OptionalBool.optTrue) || c.dockerDaemonInsecureSkipTLSVerify

/-! ## Character-level string utilities (strings.Split, strings.TrimPrefix, path.Base) -/

/-- Model of Go `strings.Split(s, sep)` for a one-character separator,
working on the character list: always returns one more piece than there are
separators. -/
def splitOnChar (c : Char) : List Char → List (List Char)
  | [] => [[]]
  | x :: xs =>
    let r := splitOnChar c xs
    if x = c then [] :: r
    else
      match r with
      | [] => [[x]]
      | h :: t => (x :: h) :: t

/-- The string the code actually matches the tag regex against:
`strings.Split(ref, ":")[1]` (sync.go line 389), i.e. the piece between the
first and the second `:`. The Go code indexes blindly; references built by
`imagesToCopyFromRepo` always contain a `:`, and the model returns `""`
when the index would be out of range. -/
def tagMatchField (s : String) : String :=
  ⟨(splitOnChar ':' s.data).getD 1 []⟩

/-- Everything after the first `:` of the character list (empty when there
is no `:`). -/
def afterColonL : List Char → List Char
  | [] => []
  | x :: xs => if x = ':' then xs else afterColonL xs

/-- Modelled from the spec wording for claim C3: "the tag component — the
substring after the first `:` separator of the fully qualified reference
string"; used only to compare the spec description with the code. -/
def afterFirstColon (s : String) : String :=
  ⟨afterColonL s.data⟩

/-- Number of colons in a string. -/
def colonCount (s : String) : Nat :=
  s.data.count ':'

/-- Model of Go `strings.TrimPrefix(s, pre)`: drop `pre` when it is a
prefix, otherwise return `s` unchanged (used at sync.go line 580). -/
def trimPrefixStr (s pre : String) : String :=
  if pre.data.isPrefixOf s.data then ⟨s.data.drop pre.data.length⟩ else s

/-- Model of Go `path.Base` on the character list: empty path gives `"."`,
a path of only slashes gives `"/"`, otherwise the last slash-separated
component after stripping trailing slashes. -/
def pathBaseL (l : List Char) : List Char :=
  if l = [] then ['.']
  else
    match l.reverse.dropWhile (fun c => c = '/') with
    | [] => ['/']
    | x :: xs => ((x :: xs).takeWhile (fun c => ¬ c = '/')).reverse

/-- Model of Go `path.Base` (used at sync.go lines 583 and 588). -/
def pathBase (s : String) : String :=
  ⟨pathBaseL s.data⟩

/-! ## Registry tag enumeration (`getImageTags`, `imagesToCopyFromRepo`) -/

/-- Observable outcomes of `docker.GetRepositoryTags`: a tag list, the
`docker.ErrUnauthorizedForCredentials` error, or any other error.  On the
error outcomes the accompanying Go tag slice is nil (empty). -/
inductive ListTagsResult where
  | ok (tags : List String)
  | unauthorized
  | otherErr (msg : String)
  deriving DecidableEq, Repr

/-- Model of `getImageTags` (sync.go lines 169-189): unauthorized tag-list
responses degrade to an empty tag list with no error; any other error is
wrapped and returned. -/
def getImageTags : ListTagsResult → Except String (List String)
  | .ok tags => .ok tags
  | .unauthorized => .ok []
  | .otherErr m => .error ("Error determining repository tags for image: " ++ m)

/-- Environment of external collaborators for inventory planning: the
observable behaviour of `regexp.Compile` (a matcher on success, `none` on
compile failure), `docker.GetRepositoryTags` per repository name,
`docker.ParseReference` success per reference string, `isTagSpecified` per
source name, the `os.Stat` result for a directory source, the files below
it, and the parsed YAML manifest. -/
structure SyncEnv where
  compile : String → Option (String → Bool)
  listTags : String → ListTagsResult
  parseRef : String → Bool
  taggedCheck : String → Except String Bool
  dirExists : Bool
  dirFiles : List (List String)
  yamlCfg : Except String (List (String × registrySyncConfig))

/-- The reference-building loop of `imagesToCopyFromRepo` (sync.go lines
218-225): one `docker.ParseReference` per `repoName:tag`; a parse failure
aborts the whole repository with an error. -/
def buildRefs (env : SyncEnv) (repoName : String) : List String → Except String (List String)
  | [] => .ok []
  | t :: ts =>
    let r := repoName ++ ":" ++ t
    if env.parseRef r then
      match buildRefs env repoName ts with
      | .ok rs => .ok (r :: rs)
      | .error e => .error e
    else .error ("Cannot obtain a valid image reference for transport docker and reference " ++ r)

/-- Model of `imagesToCopyFromRepo` (sync.go lines 211-227): enumerate the
tags via `getImageTags` and build one tagged reference per tag. -/
def imagesToCopyFromRepoM (env : SyncEnv) (repoName : String) : Except String (List String) :=
  match getImageTags (env.listTags repoName) with
  | .error e => .error e
  | .ok tags => buildRefs env repoName tags

/-! ## Per-image tag-selector resolution inside `imagesToCopyFromRegistry` -/

/-- Outcome of processing one image entry of a manifest registry: the entry
is skipped (every logged `continue`, and the `len(sourceReferences) == 0`
warning at sync.go lines 403-408), or it produces the reference list for a
descriptor, or the process panics (nil `*regexp.Regexp` dereference). -/
inductive ImageOutcome where
  | panicked
  | skipped
  | producedDesc (refs : List String)
  deriving DecidableEq, Repr

/-- The repository name built at sync.go line 267:
`"//" + path.Join(registryName, imageName)` (inputs are clean, so the join
is a plain slash). -/
def repoNameOf (registryName imageName : String) : String :=
  "//" ++ registryName ++ "/" ++ imageName

/-- The regex filter loop of sync.go lines 387-392: keep the references
whose `strings.Split(ref, ":")[1]` field matches the compiled regex. -/
def filterByTagRegex (m : String → Bool) (refs : List String) : List String :=
  refs.filter (fun r => m (tagMatchField r))

/-- Modelled from the spec wording for claim C3 (the refinement target, not
the code): keep the references whose substring after the first `:` matches. -/
def filterByTagRegexSpec (m : String → Bool) (refs : List String) : List String :=
  refs.filter (fun r => m (afterFirstColon r))

/-- The "query the whole repository" sub-path shared by the empty-tag-list
and regex cases (sync.go lines 321-346 and 363-381): parse the repository
reference, enumerate it, and skip the image on any failure. -/
def queryRepo (env : SyncEnv) (repoName : String) : Option (List String) :=
  if env.parseRef repoName then
    match imagesToCopyFromRepoM env repoName with
    | .ok refs => some refs
    | .error _ => none
  else none

/-- Model of the per-image body of `imagesToCopyFromRegistry` (the type
switch of sync.go lines 283-401 plus the empty-result check of lines
403-408).  In the regex case, a compile failure is only logged (sync.go
lines 350-356 have no `continue`), so the code still queries the registry
and then calls `tagReg.Match` on a nil `*regexp.Regexp` for the first
discovered reference, which panics; with zero discovered references the
filter loop never runs and the entry falls through to the empty-result
skip. -/
def processImage (env : SyncEnv) (registryName imageName : String) : TagSpec → ImageOutcome
  | .list l =>
    let repoName := repoNameOf registryName imageName
    let tagList := l.filterMap coerceVal
    let sourceRefs := tagList.filterMap (fun t =>
      let s := repoName ++ ":" ++ t
      if env.parseRef s then some s else none)
    if tagList.isEmpty then
      match queryRepo env repoName with
      | none => .skipped
      | some refs => if refs.isEmpty then .skipped else .producedDesc refs
    else if sourceRefs.isEmpty then .skipped else .producedDesc sourceRefs
  | .regex pat =>
    let tagReg := env.compile pat
    let repoName := repoNameOf registryName imageName
    match queryRepo env repoName with
    | none => .skipped
    | some allRefs =>
      match tagReg with
      | some m =>
        let kept := filterByTagRegex m allRefs
        if kept.isEmpty then .skipped else .producedDesc kept
      | none =>
        if allRefs.isEmpty then .skipped else .panicked
  | .other => .skipped

/-! ## The registry loop, the shared context cell, and the planner dispatch -/

/-- Model of `repoDescriptor` (sync.go lines 39-43).  `context` records the
value of the shared per-call context cell at the moment the descriptor is
constructed (the Go code stores a pointer to that cell). -/
structure repoDescriptor where
  dirBasePath : String
  taggedImages : List String
  context : SystemContext
  deriving DecidableEq, Repr

/-- Result of one `imagesToCopyFromRegistry` call: descriptors, or a
process panic escaping from a nil-regex `Match`. -/
inductive RegistryResult where
  | panicked
  | ok (descs : List repoDescriptor)
  deriving DecidableEq, Repr

/-- The image loop of `imagesToCopyFromRegistry` (sync.go lines 266-413).
`cell` is the single `sourceCtx` parameter copy whose address every
iteration takes (`serverCtx := &sourceCtx`, line 273); each iteration
rewrites the five override fields on that same cell (lines 275-279) before
resolving the image, and a produced descriptor stores the cell (line
410-412). -/
def registryLoop (env : SyncEnv) (registryName : String) (cfg : registrySyncConfig)
    (cell : SystemContext) : List (String × TagSpec) → RegistryResult
  | [] => .ok []
  | (imageName, spec) :: rest =>
    let cell2 := applyOverrides cfg cell
    match processImage env registryName imageName spec with
    | .panicked => .panicked
    | .skipped => registryLoop env registryName cfg cell2 rest
    | .producedDesc refs =>
      match registryLoop env registryName cfg cell2 rest with
      | .panicked => .panicked
      | .ok ds => .ok ({ dirBasePath := "", taggedImages := refs, context := cell2 } :: ds)

/-- Model of `imagesToCopyFromRegistry` (sync.go lines 264-416): the
function receives the base context by value (the clone) and always returns
a nil error, every per-image failure having been skipped. -/
def imagesToCopyFromRegistryM (env : SyncEnv) (registryName : String)
    (cfg : registrySyncConfig) (sourceCtx : SystemContext) : RegistryResult :=
  registryLoop env registryName cfg sourceCtx cfg.images

/-- The final value of the shared context cell after the image loop: the
overrides applied once to the by-value copy of the base context (re-writes
with the same `cfg` are idempotent), or the untouched copy when the
registry declares no images. -/
def finalCell (cfg : registrySyncConfig) (base : SystemContext) : SystemContext :=
  if cfg.images.isEmpty then base else applyOverrides cfg base

/-- Result of the whole planner: descriptors with a nil error, an error, or
a propagated panic. -/
inductive PlanResult where
  | panicked
  | errored (msg : String)
  | ok (descs : List repoDescriptor)
  deriving DecidableEq, Repr

/-- The registry loop of the `yaml` branch of `imagesToCopy` (sync.go lines
484-497): registries with an empty image map are skipped with a warning;
each remaining registry is processed from a fresh by-value copy of the
shared base context (`*sourceCtx` at line 492). -/
def yamlRegistries (env : SyncEnv) (base : SystemContext) :
    List (String × registrySyncConfig) → PlanResult
  | [] => .ok []
  | (registryName, cfg) :: rest =>
    if cfg.images.isEmpty then yamlRegistries env base rest
    else
      match imagesToCopyFromRegistryM env registryName cfg base with
      | .panicked => .panicked
      | .ok ds =>
        match yamlRegistries env base rest with
        | .panicked => .panicked
        | .errored e => .errored e
        | .ok ds2 => .ok (ds ++ ds2)

/-- The descriptors carried by a registry result (none on a panic). -/
def descsOfRegistry : RegistryResult → List repoDescriptor
  | .panicked => []
  | .ok ds => ds

/-- The descriptors carried by a plan result (none on a panic or error). -/
def descsOfPlan : PlanResult → List repoDescriptor
  | .ok ds => ds
  | _ => []

/-- Renders a directory-transport reference for an image directory given by
its path components below the source root. -/
def renderDirRef (source : String) (d : List String) : String :=
  d.foldl (fun a c => a ++ "/" ++ c) source

/-- Go `%q`-style quoting as used in the error messages (plain quotes; the
sources contain no characters needing escapes). -/
def quoted (s : String) : String :=
  "\"" ++ s ++ "\""

/-! ## Directory enumeration (`imagesToCopyFromDir`, filepath.Walk) -/

/-- A path below the walk root, as its list of components; the files of the
tree are given by their paths (directories are implied prefixes). -/
abbrev FilePath0 := List String

/-- A file is the manifest marker when its name (last component) is
`manifest.json` (sync.go line 239). -/
def isMarkerFile (p : FilePath0) : Bool :=
  p.getLast? = some "manifest.json"

/-- `filepath.Dir` of a file path: drop the last component. -/
def dirOf (p : FilePath0) : FilePath0 :=
  p.dropLast

/-- Character-wise strict order on names (Go sorts directory entries with
byte-wise `sort.Strings`; on the ASCII names involved the codepoint order
coincides). -/
def nameLtChars : List Char → List Char → Bool
  | [], [] => false
  | [], _ :: _ => true
  | _ :: _, [] => false
  | a :: as, b :: bs => if a < b then true else if b < a then false else nameLtChars as bs

/-- Strict order on entry names. -/
def nameLt (a b : String) : Bool :=
  nameLtChars a.data b.data

/-- Lexicographic order on component lists, matching the order in which
`filepath.Walk` visits paths (entries of every directory are read sorted by
name, directories are visited before their contents). -/
def lexLtPath : FilePath0 → FilePath0 → Bool
  | [], [] => false
  | [], _ :: _ => true
  | _ :: _, [] => false
  | a :: as, b :: bs => if nameLt a b then true else if nameLt b a then false else lexLtPath as bs

/-- Insertion into a lexicographically sorted path list. -/
def insertPath (p : FilePath0) : List FilePath0 → List FilePath0
  | [] => [p]
  | q :: qs => if lexLtPath p q then p :: q :: qs else q :: insertPath p qs

/-- Insertion sort by `lexLtPath`: the visit order of `filepath.Walk`. -/
def sortPaths : List FilePath0 → List FilePath0
  | [] => []
  | p :: ps => insertPath p (sortPaths ps)

/-- The walk function of `imagesToCopyFromDir` (sync.go lines 235-249) over
the walk-ordered file list: on a file named `manifest.json`, emit its
directory and return `filepath.SkipDir`, which skips the remaining entries
of the containing directory — in walk order, exactly the later files lying
below that directory. -/
def walkFiles : List FilePath0 → List FilePath0
  | [] => []
  | p :: rest =>
    if isMarkerFile p then
      dirOf p :: walkFiles (rest.filter (fun q => ¬ (dirOf p).isPrefixOf q))
    else walkFiles rest
termination_by l => l.length
decreasing_by
  · simp only [List.length_cons]
    exact Nat.lt_succ_of_le (List.length_filter_le _ _)
  · simp

/-- Model of `imagesToCopyFromDir` (sync.go lines 233-257): walk the file
tree in sorted order and collect one directory per marker file found,
stopping descent at each marker.  The result is the list of emitted image
directories (as component paths below the root). -/
def imagesToCopyFromDir (files : List FilePath0) : List FilePath0 :=
  walkFiles (sortPaths files)

/-- The directories of the tree that directly contain a marker file. -/
def markerDirsOf (files : List FilePath0) : List FilePath0 :=
  (files.filter isMarkerFile).map dirOf

/-- No marker-containing directory lies strictly below another (the spec
calls nested markers "impossible by construction"). -/
def NoNestedMarkers (files : List FilePath0) : Prop :=
  ∀ d1 ∈ markerDirsOf files, ∀ d2 ∈ markerDirsOf files, d1 <+: d2 → d1 = d2

/-! ## The planner dispatch (`imagesToCopy`) and CLI validation (`run`) -/

/-- Model of `imagesToCopy` (sync.go lines 423-501).  The `docker` branch
(lines 427-458) handles a tagged source directly and otherwise enumerates
the repository, failing on zero images; the `dir` branch (lines 460-477)
requires the source to exist and to contain at least one image; the `yaml`
branch (lines 479-497) parses the manifest and fans out per registry; the
switch has no default branch, so any other transport falls through to
`return descriptors, nil` with the descriptor slice still nil. -/
def imagesToCopyM (env : SyncEnv) (source transport : String) (sourceCtx : SystemContext) :
    PlanResult :=
  if transport = "docker" then
    let refName := "//" ++ source
    if env.parseRef refName then
      match env.taggedCheck source with
      | .error e => .errored e
      | .ok true => .ok [{ dirBasePath := "", taggedImages := [refName], context := sourceCtx }]
      | .ok false =>
        match imagesToCopyFromRepoM env refName with
        | .error e => .errored e
        | .ok refs =>
          if refs.isEmpty then .errored ("No images to sync found in " ++ quoted source)
          else .ok [{ dirBasePath := "", taggedImages := refs, context := sourceCtx }]
    else .errored ("Cannot obtain a valid image reference for transport docker and reference //" ++ source)
  else if transport = "dir" then
    if env.dirExists then
      let imgs := (imagesToCopyFromDir env.dirFiles).map (renderDirRef source)
      if imgs.isEmpty then .errored ("No images to sync found in " ++ quoted source)
      else .ok [{ dirBasePath := source, taggedImages := imgs, context := sourceCtx }]
    else .errored "Invalid source directory specified"
  else if transport = "yaml" then
    match env.yamlCfg with
    | .error e => .errored e
    | .ok cfgs => yamlRegistries env sourceCtx cfgs
  else .ok []

/-- The `contains` closure defined inside `syncOptions.run` (sync.go lines
515-522). -/
def containsStr (val : String) : List String → Bool
  | [] => false
  | l :: ls => if l = val then true else containsStr val ls

/-- The source/destination transport validation of `syncOptions.run`
(sync.go lines 524-540), performed before planning is invoked: `none` means
validation passed. -/
def runValidate (src dst : String) : Option String :=
  if src = "" then some "A source transport must be specified"
  else if ¬ (containsStr src ["docker", "dir", "yaml"] = true) then
    some (quoted src ++ " is not a valid source transport")
  else if dst = "" then some "A destination transport must be specified"
  else if ¬ (containsStr dst ["docker", "dir"] = true) then
    some (quoted dst ++ " is not a valid destination transport")
  else if src = dst ∧ src = "dir" then
    some "sync from 'dir' to 'dir' not implemented, consider using rsync instead"
  else none

/-- The planning phase of `syncOptions.run` (validation at sync.go lines
524-540 followed by the `imagesToCopy` call at line 548): an invalid source
kind is rejected by the CLI level and the planner is never invoked. -/
def runPlanPhase (env : SyncEnv) (src dst source : String) (base : SystemContext) :
    PlanResult :=
  match runValidate src dst with
  | some e => .errored e
  | none => imagesToCopyM env source src base

/-! ## Destination resolution (`destinationReference`, destination suffixes) -/

/-- The destination-suffix computation for a directory-sourced reference
(sync.go lines 579-584): strip the descriptor base path from the
within-transport path; an empty result falls back to `path.Base` of the
base path. -/
def destSuffixDir (refPath basePath : String) : String :=
  let t := trimPrefixStr refPath basePath
  if t = "" then pathBase basePath else t

/-- Observable `os.Stat` outcomes for the destination path. -/
inductive StatResult where
  | found
  | notFound
  | statError
  deriving DecidableEq, Repr

/-- Filesystem-affecting steps taken by `destinationReference`, in order:
the `os.MkdirAll` call and the use of the path as a reference
(`ParseReference`). -/
inductive FsAction where
  | mkdirAll (p : String)
  | useRef (p : String)
  deriving DecidableEq, Repr

/-- Model of `destinationReference` (sync.go lines 132-164): the returned
action list records what was done to the filesystem and in which order;
the `Except` result is the reference or the error. -/
def destinationReference (destination transport : String) (st : StatResult)
    (mkdirOk : Bool) (parseOk : String → Bool) : List FsAction × Except String String :=
  if transport = "docker" then
    let d := "//" ++ destination
    ([FsAction.useRef d],
      if parseOk d then .ok d
      else .error ("Cannot obtain a valid image reference for transport docker and reference " ++ d))
  else if transport = "dir" then
    match st with
    | .found => ([], .error ("Refusing to overwrite destination directory " ++ quoted destination))
    | .statError => ([], .error "Destination directory could not be used")
    | .notFound =>
      if mkdirOk then
        ([FsAction.mkdirAll destination, FsAction.useRef destination],
          if parseOk destination then .ok destination
          else .error ("Cannot obtain a valid image reference for transport dir and reference " ++ destination))
      else ([FsAction.mkdirAll destination], .error ("Error creating directory for image " ++ destination))
  else ([], .error (quoted transport ++ " is not a valid destination transport"))

/-- The destination-resolution part of the executor loop of
`syncOptions.run` (sync.go lines 570-594), with `mkdirAll` and parsing
succeeding: resolve each planned destination in order against its `os.Stat`
outcome; the first `destinationReference` error is returned and aborts the
run, leaving the remaining entries unprocessed. -/
def runSync : List (String × StatResult) → List FsAction × Except String Unit
  | [] => ([], .ok ())
  | (d, st) :: rest =>
    let r := destinationReference d "dir" st true (fun _ => true)
    match r.2 with
    | .error e => (r.1, .error e)
    | .ok _ =>
      let rr := runSync rest
      (r.1 ++ rr.1, rr.2)

/-! ## Concrete fixtures used by witnesses and counterexamples -/

/-- A base system context with distinguishable field values. -/
def baseCtx0 : SystemContext :=
  { dockerCertPath := "/base/certs"
    dockerDaemonCertPath := "/base/daemon-certs"
    dockerDaemonInsecureSkipTLSVerify := false
    dockerInsecureSkipTLSVerify := OptionalBool.undefined
    dockerAuthConfig := none
    rest := 7 }

/-- Environment for claim C1: the regex fails to compile, the registry
reports one tag, every reference parses. -/
def envC1 : SyncEnv :=
  { compile := fun _ => none
    listTags := fun _ => .ok ["latest"]
    parseRef := fun _ => true
    taggedCheck := fun _ => .ok false
    dirExists := false
    dirFiles := []
    yamlCfg := .ok [("registry.example.com",
      { images := [("repo1", .regex "[")]
        credentials := { username := "", password := "" }
        tlsVerify := ⟨OptionalBool.undefined⟩
        certDir := "" })] }

/-- Registry config for claim C2's witness: one image with an explicit
tag list, skip-TLS requested, credentials and a cert dir set. -/
def cfgC2 : registrySyncConfig :=
  { images := [("repo1", .list [.str "v1"]), ("repo2", .list [.str "v2"])]
    credentials := { username := "user", password := "pass" }
    tlsVerify := ⟨OptionalBool.optTrue⟩
    certDir := "/etc/certs/registryA" }

/-- Environment for claim C2's witness. -/
def envC2 : SyncEnv :=
  { compile := fun _ => none
    listTags := fun _ => .ok []
    parseRef := fun _ => true
    taggedCheck := fun _ => .ok false
    dirExists := false
    dirFiles := []
    yamlCfg := .ok [("registryA", cfgC2)] }

/-- The first descriptor produced for `cfgC2` from `baseCtx0` (claim C2's
witness). -/
def descC2 : repoDescriptor :=
  { dirBasePath := ""
    taggedImages := ["//registryA/repo1:v1"]
    context := applyOverrides cfgC2 baseCtx0 }

/-- Environment for claim C4: the registry reports one tag (`latest`) and
every reference parses. -/
def envC4 : SyncEnv :=
  { compile := fun _ => none
    listTags := fun _ => .ok ["latest"]
    parseRef := fun _ => true
    taggedCheck := fun _ => .ok false
    dirExists := false
    dirFiles := []
    yamlCfg := .ok [] }

/-- Environment for claim C5's witness: the tag-list endpoint answers
`unauthorized`, the source is untagged. -/
def envC5 : SyncEnv :=
  { compile := fun _ => none
    listTags := fun _ => .unauthorized
    parseRef := fun _ => true
    taggedCheck := fun _ => .ok false
    dirExists := false
    dirFiles := []
    yamlCfg := .ok [] }

/-- File tree for claim C7's witness: two sibling images, no nested
markers. -/
def c7files : List FilePath0 :=
  [["a", "manifest.json"], ["b", "c", "manifest.json"]]

/-- Environment for claim C10's witness (contents irrelevant to the claim). -/
def envC10 : SyncEnv :=
  { compile := fun _ => none
    listTags := fun _ => .ok []
    parseRef := fun _ => true
    taggedCheck := fun _ => .ok false
    dirExists := false
    dirFiles := []
    yamlCfg := .ok [] }

/-! ## Helper lemmas -/

/-- Re-applying the same registry overrides to the shared context cell is
idempotent: every overridden field depends only on `cfg` and the remaining
fields are carried through. -/
theorem applyOverrides_idem (cfg : registrySyncConfig) (c : SystemContext) :
    applyOverrides cfg (applyOverrides cfg c) = applyOverrides cfg c := rfl

/-- Every descriptor produced by the image loop stores the override of the
context cell it started from, regardless of how often the cell is
re-written by later iterations. -/
theorem registryLoop_context (env : SyncEnv) (regName : String) (cfg : registrySyncConfig) :
    ∀ (images : List (String × TagSpec)) (cell : SystemContext),
      ∀ d ∈ descsOfRegistry (registryLoop env regName cfg cell images),
        d.context = applyOverrides cfg cell := by
  intro images
  induction images with
  | nil =>
    intro cell d hd
    simp [registryLoop, descsOfRegistry] at hd
  | cons hd0 tl ih =>
    intro cell d hd
    obtain ⟨imageName, spec⟩ := hd0
    rw [registryLoop] at hd
    cases hpi : processImage env regName imageName spec with
    | panicked => simp [hpi, descsOfRegistry] at hd
    | skipped =>
      simp only [hpi] at hd
      have h := ih (applyOverrides cfg cell) d hd
      rw [h, applyOverrides_idem]
    | producedDesc refs =>
      simp only [hpi] at hd
      cases hrl : registryLoop env regName cfg (applyOverrides cfg cell) tl with
      | panicked => simp [hrl, descsOfRegistry] at hd
      | ok ds =>
        simp only [hrl, descsOfRegistry, List.mem_cons] at hd
        rcases hd with h | h
        · rw [h]
        · have h2 := ih (applyOverrides cfg cell) d (by simp [hrl, descsOfRegistry, h])
          rw [h2, applyOverrides_idem]

/-- Every descriptor of a yaml-branch plan got its context by applying one
declared registry's overrides directly to the shared base context. -/
theorem yamlRegistries_context (env : SyncEnv) (base : SystemContext) :
    ∀ (cfgs : List (String × registrySyncConfig)),
      ∀ d ∈ descsOfPlan (yamlRegistries env base cfgs),
        ∃ p ∈ cfgs, d.context = applyOverrides p.2 base := by
  intro cfgs
  induction cfgs with
  | nil =>
    intro d hd
    simp [yamlRegistries, descsOfPlan] at hd
  | cons hd0 tl ih =>
    intro d hd
    obtain ⟨nm, cfg⟩ := hd0
    rw [yamlRegistries] at hd
    by_cases he : cfg.images.isEmpty
    · simp only [he, if_pos] at hd
      obtain ⟨p, hp, h⟩ := ih d hd
      exact ⟨p, List.mem_cons_of_mem _ hp, h⟩
    · simp only [he, if_neg, Bool.false_eq_true, not_false_eq_true] at hd
      cases hr : imagesToCopyFromRegistryM env nm cfg base with
      | panicked => simp [hr, descsOfPlan] at hd
      | ok ds =>
        cases hy : yamlRegistries env base tl with
        | panicked => simp [hr, hy, descsOfPlan] at hd
        | errored e => simp [hr, hy, descsOfPlan] at hd
        | ok ds2 =>
          simp only [hr, hy, descsOfPlan, List.mem_append] at hd
          rcases hd with h | h
          · refine ⟨(nm, cfg), List.mem_cons_self _ _, ?_⟩
            have hr2 : registryLoop env nm cfg base cfg.images = RegistryResult.ok ds := hr
            exact registryLoop_context env nm cfg cfg.images base d
              (by simp [hr2, descsOfRegistry, h])
          · obtain ⟨p, hp, hh⟩ := ih d (by simp [hy, descsOfPlan, h])
            exact ⟨p, List.mem_cons_of_mem _ hp, hh⟩

/-- The first element surviving `dropWhile` falsifies the predicate. -/
theorem dropWhile_head_false {α : Type} (p : α → Bool) :
    ∀ (l : List α) (x : α) (xs : List α), l.dropWhile p = x :: xs → p x = false := by
  intro l
  induction l with
  | nil => intro x xs h; simp [List.dropWhile] at h
  | cons a as ih =>
    intro x xs h
    rw [List.dropWhile_cons] at h
    split at h
    · exact ih x xs h
    · rename_i hpa
      cases h
      simpa using hpa

/-- `path.Base` never returns an empty component list. -/
theorem pathBaseL_ne_nil (l : List Char) : pathBaseL l ≠ [] := by
  unfold pathBaseL
  split
  · simp
  · cases hdw : l.reverse.dropWhile (fun c => decide (c = '/')) with
    | nil => simp [hdw]
    | cons x xs =>
      simp only [hdw]
      have hx := dropWhile_head_false _ _ x xs hdw
      have hx2 : ¬ x = '/' := by simpa using hx
      rw [List.takeWhile_cons_of_pos (by simpa using hx2)]
      simp

/-- `path.Base` never returns the empty string. -/
theorem pathBase_ne_empty (s : String) : pathBase s ≠ "" := by
  unfold pathBase
  intro h
  have h2 : pathBaseL s.data = [] := by
    have h3 := congrArg String.data h
    simpa using h3
  exact pathBaseL_ne_nil _ h2

/-- `strings.Split` never returns an empty slice. -/
theorem splitOnChar_ne_nil (c : Char) : ∀ (l : List Char), splitOnChar c l ≠ [] := by
  intro l
  induction l with
  | nil => simp [splitOnChar]
  | cons x xs ih =>
    simp only [splitOnChar]
    split
    · simp
    · cases h : splitOnChar c xs with
      | nil => simp
      | cons hh tt => simp

/-- Splitting a list without the separator yields the single whole piece. -/
theorem splitOnChar_no_sep (c : Char) : ∀ (l : List Char), c ∉ l → splitOnChar c l = [l] := by
  intro l
  induction l with
  | nil => intro _; rfl
  | cons x xs ih =>
    intro h
    have hx : ¬ x = c := by rintro rfl; exact h (List.mem_cons_self _ _)
    have hxs : c ∉ xs := fun hc => h (List.mem_cons_of_mem _ hc)
    simp only [splitOnChar, if_neg hx, ih hxs]

/-- With at most one separator, the field between the first and second
separator coincides with everything after the first separator. -/
theorem getD_splitOnChar_eq_afterColon :
    ∀ (l : List Char), l.count ':' ≤ 1 → (splitOnChar ':' l).getD 1 [] = afterColonL l := by
  intro l
  induction l with
  | nil => intro _; rfl
  | cons x xs ih =>
    intro h
    by_cases hx : x = ':'
    · subst hx
      have hxs : ':' ∉ xs := by
        rw [List.count_cons_self] at h
        exact (List.count_eq_zero).1 (by omega)
      simp only [splitOnChar, if_pos rfl, afterColonL]
      rw [splitOnChar_no_sep _ _ hxs]
      rfl
    · have hcount : xs.count ':' ≤ 1 := by
        rw [List.count_cons_of_ne (fun h2 => hx h2.symm)] at h
        exact h
      simp only [splitOnChar, afterColonL, if_neg hx]
      cases hs : splitOnChar ':' xs with
      | nil => exact absurd hs (splitOnChar_ne_nil _ _)
      | cons hh tt =>
        have h3 := ih hcount
        rw [hs] at h3
        simpa using h3

/-- A `filterMap` whose function is total on the list is the corresponding
`map`. -/
theorem filterMap_eq_map_of_total {α β : Type} (f : α → Option β) (dflt : β) :
    ∀ (l : List α), (∀ v ∈ l, f v ≠ none) →
      l.filterMap f = l.map (fun v => (f v).getD dflt) := by
  intro l
  induction l with
  | nil => intro _; rfl
  | cons a as ih =>
    intro h
    have ha := h a (List.mem_cons_self _ _)
    cases hfa : f a with
    | none => exact absurd hfa ha
    | some b =>
      rw [List.filterMap_cons, hfa, List.map_cons,
        ih (fun v hv => h v (List.mem_cons_of_mem _ hv)), hfa]
      rfl

/-- Membership in the marker-directory list, unfolded. -/
theorem mem_markerDirsOf {d : FilePath0} {l : List FilePath0} :
    d ∈ markerDirsOf l ↔ ∃ q, q ∈ l ∧ isMarkerFile q = true ∧ dirOf q = d := by
  simp only [markerDirsOf, List.mem_map, List.mem_filter]
  constructor
  · rintro ⟨q, ⟨hq, hm⟩, hd⟩
    exact ⟨q, hq, hm, hd⟩
  · rintro ⟨q, hq, hm, hd⟩
    exact ⟨q, ⟨hq, hm⟩, hd⟩

/-- Marker directories of a sublist are among those of the whole list. -/
theorem markerDirsOf_sublist {l1 l2 : List FilePath0} (h : l1.Sublist l2) :
    markerDirsOf l1 ⊆ markerDirsOf l2 :=
  ((h.filter _).map _).subset

/-- A marker file path is its directory followed by the marker name. -/
theorem marker_decomp {p : FilePath0} (h : isMarkerFile p = true) :
    p = dirOf p ++ ["manifest.json"] := by
  have h2 : p.getLast? = some "manifest.json" := by simpa [isMarkerFile] using h
  exact (List.dropLast_append_getLast? "manifest.json" (Option.mem_def.mpr h2)).symm

/-- A prefix of a snoc is a prefix of the front or the whole snoc. -/
theorem prefix_snoc_cases {α : Type} {l1 l2 : List α} {x : α} (h : l1 <+: l2 ++ [x]) :
    l1 <+: l2 ∨ l1 = l2 ++ [x] := by
  rcases Nat.lt_or_ge l1.length (l2 ++ [x]).length with hlt | hge
  · left
    have hle : l1.length ≤ l2.length := by
      simp only [List.length_append, List.length_singleton] at hlt
      omega
    exact List.prefix_of_prefix_length_le h (List.prefix_append l2 [x]) hle
  · right
    exact h.eq_of_length (Nat.le_antisymm h.length_le hge)

/-- Every directory emitted by the walk directly contains a marker file. -/
theorem walkFiles_sound : ∀ (l : List FilePath0), ∀ d ∈ walkFiles l, d ∈ markerDirsOf l := by
  intro l
  induction l using walkFiles.induct with
  | case1 =>
    intro d hd
    simp [walkFiles] at hd
  | case2 q qs hm ih =>
    intro d hd
    simp only [walkFiles] at hd
    rw [if_pos hm] at hd
    rcases List.mem_cons.mp hd with rfl | hd2
    · exact mem_markerDirsOf.mpr ⟨q, List.mem_cons_self _ _, hm, rfl⟩
    · exact markerDirsOf_sublist ((List.filter_sublist qs).trans (List.sublist_cons_self _ _))
        (ih d hd2)
  | case3 q qs hm ih =>
    intro d hd
    simp only [walkFiles] at hd
    rw [if_neg hm] at hd
    exact markerDirsOf_sublist (List.sublist_cons_self _ _) (ih d hd)

/-- The walk emits each directory at most once: after emitting a marker
directory every later file beneath it is filtered out. -/
theorem walkFiles_nodup : ∀ (l : List FilePath0), (walkFiles l).Nodup := by
  intro l
  induction l using walkFiles.induct with
  | case1 => simp [walkFiles]
  | case2 q qs hm ih =>
    simp only [walkFiles]
    rw [if_pos hm]
    rw [List.nodup_cons]
    refine ⟨?_, ih⟩
    intro hmem
    rcases mem_markerDirsOf.mp (walkFiles_sound _ _ hmem) with ⟨r, hrmem, hrmark, hrdir⟩
    have hrfil := List.mem_filter.mp hrmem
    have hnot : ¬ ((dirOf q).isPrefixOf r = true) := by simpa using hrfil.2
    apply hnot
    rw [List.isPrefixOf_iff_prefix, marker_decomp hrmark, hrdir]
    exact List.prefix_append _ _
  | case3 q qs hm ih =>
    simp only [walkFiles]
    rw [if_neg hm]
    exact ih

/-- With no nested markers, every marker directory is emitted by the walk:
the only files the walk drops after emitting a directory lie beneath that
directory, and by hypothesis no other marker lives there. -/
theorem walkFiles_complete : ∀ (l : List FilePath0), NoNestedMarkers l →
    ∀ d ∈ markerDirsOf l, d ∈ walkFiles l := by
  intro l
  induction l using walkFiles.induct with
  | case1 =>
    intro _ d hd
    simp [markerDirsOf] at hd
  | case2 q qs hm ih =>
    intro hnn d hd
    simp only [walkFiles]
    rw [if_pos hm]
    have hq_mem : dirOf q ∈ markerDirsOf (q :: qs) :=
      mem_markerDirsOf.mpr ⟨q, List.mem_cons_self _ _, hm, rfl⟩
    rcases mem_markerDirsOf.mp hd with ⟨r, hr, hrm, hrd⟩
    rcases List.mem_cons.mp hr with rfl | hr2
    · rw [← hrd]
      exact List.mem_cons_self _ _
    · by_cases hpf : (dirOf q).isPrefixOf r = true
      · have hqd : (dirOf q) <+: r := List.isPrefixOf_iff_prefix.mp hpf
        have hrdec : r = d ++ ["manifest.json"] := by
          rw [← hrd]
          exact marker_decomp hrm
        rw [hrdec] at hqd
        rcases prefix_snoc_cases hqd with hqd2 | hqd2
        · have heq := hnn (dirOf q) hq_mem d hd hqd2
          rw [← heq]
          exact List.mem_cons_self _ _
        · exfalso
          have hpre : d <+: dirOf q := by
            rw [hqd2]
            exact List.prefix_append _ _
          have heq := hnn d hd (dirOf q) hq_mem hpre
          rw [← heq] at hqd2
          simpa using congrArg List.length hqd2
      · refine List.mem_cons_of_mem _ (ih ?_ d ?_)
        · intro d1 h1 d2 h2 hp
          exact hnn d1
            (markerDirsOf_sublist ((List.filter_sublist qs).trans (List.sublist_cons_self _ _)) h1)
            d2
            (markerDirsOf_sublist ((List.filter_sublist qs).trans (List.sublist_cons_self _ _)) h2)
            hp
        · refine mem_markerDirsOf.mpr ⟨r, ?_, hrm, hrd⟩
          rw [List.mem_filter]
          exact ⟨hr2, by simpa using hpf⟩
  | case3 q qs hm ih =>
    intro hnn d hd
    simp only [walkFiles]
    rw [if_neg hm]
    have hd2 : d ∈ markerDirsOf qs := by
      rcases mem_markerDirsOf.mp hd with ⟨r, hr, hrm, hrd⟩
      rcases List.mem_cons.mp hr with rfl | hr2
      · exact absurd hrm hm
      · exact mem_markerDirsOf.mpr ⟨r, hr2, hrm, hrd⟩
    refine ih ?_ d hd2
    intro d1 h1 d2 h2 hp
    exact hnn d1 (markerDirsOf_sublist (List.sublist_cons_self _ _) h1)
      d2 (markerDirsOf_sublist (List.sublist_cons_self _ _) h2) hp

/-- Inserting into the sorted list is a permutation of consing. -/
theorem insertPath_perm (p : FilePath0) : ∀ (l : List FilePath0), (insertPath p l).Perm (p :: l) := by
  intro l
  induction l with
  | nil => simp [insertPath]
  | cons q qs ih =>
    simp only [insertPath]
    split
    · exact List.Perm.refl _
    · exact (List.Perm.cons q ih).trans (List.Perm.swap p q qs)

/-- The walk order is a permutation of the raw file list. -/
theorem sortPaths_perm : ∀ (l : List FilePath0), (sortPaths l).Perm l := by
  intro l
  induction l with
  | nil => simp [sortPaths]
  | cons p ps ih =>
    simp only [sortPaths]
    exact (insertPath_perm p (sortPaths ps)).trans (List.Perm.cons p ih)

/-! ## Claim theorems -/

/-- C6: for a manifest registry entry without a `tls-verify` key the
resulting execution context enforces TLS verification: the decoded field is
the tri-state `undefined` (the unmarshal/decoding default, not the plain
boolean zero value), so after the overrides neither the registry nor the
daemon skip flag requests skipping; an explicit `tls-verify: false` by
contrast yields the skip-requested state. -/
theorem c6_tls_absent_enforced : ∀ (base : SystemContext) (imgs : List (String × TagSpec))
    (cred : DockerAuthConfig) (cd : String),
    requestsSkipTLS (applyOverrides ⟨imgs, cred, unmarshalTLSVerify none, cd⟩ base) = false
    ∧ (applyOverrides ⟨imgs, cred, unmarshalTLSVerify none, cd⟩ base).dockerInsecureSkipTLSVerify
        = OptionalBool.undefined
    ∧ (unmarshalTLSVerify none).skip = OptionalBool.undefined
    ∧ newOptionalBool false = OptionalBool.optFalse
    ∧ (unmarshalTLSVerify (some false)).skip = OptionalBool.optTrue := by
  intro base imgs cred cd
  exact ⟨rfl, rfl, rfl, rfl, rfl⟩

/-- C8: for a directory-sourced reference the destination suffix is the
within-transport path with the descriptor base path prefix removed; when
that removal yields the empty string the suffix falls back to `path.Base`
of the base path, and the resulting suffix is never empty. -/
theorem c8_dir_suffix_fallback : ∀ (refPath basePath : String),
    destSuffixDir refPath basePath ≠ ""
    ∧ (trimPrefixStr refPath basePath = "" →
        destSuffixDir refPath basePath = pathBase basePath)
    ∧ (¬ trimPrefixStr refPath basePath = "" →
        destSuffixDir refPath basePath = trimPrefixStr refPath basePath)
    ∧ (basePath.data.isPrefixOf refPath.data = true →
        trimPrefixStr refPath basePath = String.mk (refPath.data.drop basePath.data.length)) := by
  intro refPath basePath
  refine ⟨?_, ?_, ?_, ?_⟩
  · by_cases h : trimPrefixStr refPath basePath = ""
    · simpa [destSuffixDir, h] using pathBase_ne_empty basePath
    · simp [destSuffixDir, h]
  · intro h; simp [destSuffixDir, h]
  · intro h; simp [destSuffixDir, h]
  · intro h; simp [trimPrefixStr, h]

/-- Witness for C8: a source that is a single leaf image (reference path
equal to the base path) falls back to the base path's leaf name. -/
theorem c8_dir_suffix_fallback_witness :
    trimPrefixStr "/media/usb" "/media/usb" = ""
    ∧ destSuffixDir "/media/usb" "/media/usb" = pathBase "/media/usb"
    ∧ pathBase "/media/usb" = "usb" :=
  ⟨by decide, (c8_dir_suffix_fallback "/media/usb" "/media/usb").2.1 (by decide), by decide⟩

/-- C5: an unauthorized tag-listing response makes `getImageTags` return an
empty tag list with no error, and in the single-registry untagged source
path the resulting zero images are reported as the fatal no-images-found
error for the run. -/
theorem c5_unauthorized_empty_then_fatal :
    getImageTags ListTagsResult.unauthorized = Except.ok []
    ∧ ∀ (env : SyncEnv) (source : String) (base : SystemContext),
        env.taggedCheck source = Except.ok false →
        env.parseRef ("//" ++ source) = true →
        env.listTags ("//" ++ source) = ListTagsResult.unauthorized →
        imagesToCopyM env source "docker" base
          = PlanResult.errored ("No images to sync found in " ++ quoted source) := by
  refine ⟨rfl, ?_⟩
  intro env source base ht hp hl
  simp [imagesToCopyM, hp, ht, imagesToCopyFromRepoM, hl, getImageTags, buildRefs]

/-- Witness for C5: a concrete untagged registry source with an
unauthorized tag-list response. -/
theorem c5_unauthorized_witness :
    imagesToCopyM envC5 "host/repo" "docker" baseCtx0
      = PlanResult.errored ("No images to sync found in " ++ quoted "host/repo") :=
  c5_unauthorized_empty_then_fatal.2 envC5 "host/repo" baseCtx0 rfl rfl rfl

/-- C10: for every transport other than docker, dir and yaml the planner
returns an empty descriptor list with a nil error (the switch has no
default branch), and an unknown source kind is rejected by the CLI-level
validation before planning. -/
theorem c10_unknown_transport_empty_plan :
    ∀ (env : SyncEnv) (source t dst : String) (base : SystemContext),
      ¬ t = "docker" → ¬ t = "dir" → ¬ t = "yaml" →
      imagesToCopyM env source t base = PlanResult.ok []
      ∧ (¬ t = "" →
          runPlanPhase env t dst source base
            = PlanResult.errored (quoted t ++ " is not a valid source transport")) := by
  intro env source t dst base h1 h2 h3
  constructor
  · simp [imagesToCopyM, h1, h2, h3]
  · intro h0
    have hc : containsStr t ["docker", "dir", "yaml"] = false := by
      simp only [containsStr]
      rw [if_neg (fun h => h1 h.symm), if_neg (fun h => h2 h.symm),
        if_neg (fun h => h3 h.symm)]
    simp [runPlanPhase, runValidate, h0, hc]

/-- Witness for C10: the transport string `oci`. -/
theorem c10_unknown_transport_witness :
    imagesToCopyM envC10 "some/src" "oci" baseCtx0 = PlanResult.ok []
    ∧ runPlanPhase envC10 "oci" "dir" "some/src" baseCtx0
        = PlanResult.errored (quoted "oci" ++ " is not a valid source transport") := by
  have h := c10_unknown_transport_empty_plan envC10 "some/src" "oci" "dir" baseCtx0
    (by decide) (by decide) (by decide)
  exact ⟨h.1, h.2 (by decide)⟩

/-- C2: per-registry execution contexts are copy-on-construct: the clone of
the base context receives the registry's overrides, a descriptor's stored
context equals the final value of the shared per-call cell (later
constructions re-write it only with the identical override of the same
base, so it is frozen after construction), and every descriptor of a
manifest plan derives its context from the shared base directly (no
leakage of one registry's overrides into another's). -/
theorem c2_context_copy_on_construct :
    ∀ (env : SyncEnv) (regName : String) (cfg : registrySyncConfig) (base : SystemContext),
      (∀ d ∈ descsOfRegistry (imagesToCopyFromRegistryM env regName cfg base),
          d.context = applyOverrides cfg base ∧ d.context = finalCell cfg base)
      ∧ applyOverrides cfg (applyOverrides cfg base) = applyOverrides cfg base
      ∧ ∀ (cfgs : List (String × registrySyncConfig)),
          ∀ d ∈ descsOfPlan (yamlRegistries env base cfgs),
            ∃ p ∈ cfgs, d.context = applyOverrides p.2 base := by
  intro env regName cfg base
  refine ⟨?_, applyOverrides_idem cfg base, yamlRegistries_context env base⟩
  intro d hd
  have h1 := registryLoop_context env regName cfg cfg.images base d hd
  refine ⟨h1, ?_⟩
  have hne : cfg.images.isEmpty = false := by
    cases himg : cfg.images with
    | nil =>
      exfalso
      have hd2 := hd
      simp only [imagesToCopyFromRegistryM, himg, registryLoop, descsOfRegistry] at hd2
      simp at hd2
    | cons a as => simp
  simp only [finalCell, hne, Bool.false_eq_true, if_false]
  exact h1

/-- Witness for C2: the first descriptor of a concrete two-image registry
manifest stores exactly the overridden clone of the base context, equal to
the final cell value. -/
theorem c2_context_witness :
    descC2.context = applyOverrides cfgC2 baseCtx0
    ∧ descC2.context = finalCell cfgC2 baseCtx0 :=
  (c2_context_copy_on_construct envC2 "registryA" cfgC2 baseCtx0).1 descC2 (by decide)

/-- C9: for a filesystem destination, an existing target path makes
destination resolution fail with the fatal refuse-to-overwrite error and
without touching the filesystem; a non-existing target is created with its
parents (`MkdirAll`) before the reference is used; and in the executor loop
the first such refusal aborts the run, leaving later entries unprocessed. -/
theorem c9_dir_destination_refuse_overwrite :
    ∀ (dest : String) (mkOk : Bool) (pOk : String → Bool) (rest : List (String × StatResult)),
      destinationReference dest "dir" StatResult.found mkOk pOk
        = ([], Except.error ("Refusing to overwrite destination directory " ++ quoted dest))
      ∧ (destinationReference dest "dir" StatResult.notFound true pOk).1
          = [FsAction.mkdirAll dest, FsAction.useRef dest]
      ∧ ∀ (pre : List (String × StatResult)) (acts : List FsAction),
          runSync pre = (acts, Except.ok ()) →
          runSync (pre ++ (dest, StatResult.found) :: rest)
            = (acts, Except.error ("Refusing to overwrite destination directory " ++ quoted dest)) := by
  intro dest mkOk pOk rest
  refine ⟨by simp [destinationReference], by simp [destinationReference], ?_⟩
  intro pre
  induction pre with
  | nil =>
    intro acts h
    have h1 : acts = [] := by
      have h2 := congrArg Prod.fst h
      simpa [runSync] using h2.symm
    subst h1
    simp [runSync, destinationReference]
  | cons p pre ih =>
    intro acts h
    obtain ⟨d0, st0⟩ := p
    cases st0 with
    | found =>
      exfalso
      simp [runSync, destinationReference] at h
    | statError =>
      exfalso
      simp [runSync, destinationReference] at h
    | notFound =>
      rcases hrp : runSync pre with ⟨as2, e2⟩
      have hdd : destinationReference d0 "dir" StatResult.notFound true (fun _ => true)
          = ([FsAction.mkdirAll d0, FsAction.useRef d0], Except.ok d0) := by
        simp [destinationReference]
      rw [List.cons_append]
      simp only [runSync, hdd, hrp] at h ⊢
      cases e2 with
      | error e => exact absurd (congrArg Prod.snd h) (by simp)
      | ok u =>
        have hok : runSync pre = (as2, Except.ok ()) := by rw [hrp]
        rw [ih as2 hok]
        have hacts := congrArg Prod.fst h
        simp only [] at hacts
        simp [← hacts]

/-- Witness for C9: a two-entry run whose second destination already
exists aborts with the refusal error after creating only the first
directory. -/
theorem c9_refuse_overwrite_witness :
    runSync [("/out/a", StatResult.notFound), ("/out/b", StatResult.found)]
      = ([FsAction.mkdirAll "/out/a", FsAction.useRef "/out/a"],
          Except.error ("Refusing to overwrite destination directory " ++ quoted "/out/b")) :=
  (c9_dir_destination_refuse_overwrite "/out/b" true (fun _ => true) []).2.2
    [("/out/a", StatResult.notFound)]
    [FsAction.mkdirAll "/out/a", FsAction.useRef "/out/a"] rfl

/-- C1 (code bug): for a manifest image whose tag selector is a regex that
fails to compile and whose repository reports at least one tag, the code
does not skip the repository: the missing `continue` after the compile
error lets control reach `tagReg.Match` on a nil `*regexp.Regexp`, which
panics and aborts the whole run, contradicting the claimed
skip-and-continue behaviour. -/
theorem c1_invalid_regex_panics :
    processImage envC1 "registry.example.com" "repo1" (TagSpec.regex "[")
      = ImageOutcome.panicked
    ∧ imagesToCopyM envC1 "sync.yml" "yaml" baseCtx0 = PlanResult.panicked :=
  ⟨rfl, rfl⟩

/-- C3 (counterexample): with a port-qualified registry host the string the
code matches is `strings.Split(ref, ":")[1]` — here `5000/repo` — and not
the substring after the first `:` (`5000/repo:v1`); for the regex
`^5000/repo$` (denoted by its matcher) the code keeps a reference whose
claim-defined tag component does not match. -/
theorem c3_port_counterexample :
    filterByTagRegex (fun s => s == "5000/repo") ["//localhost:5000/repo:v1"]
      = ["//localhost:5000/repo:v1"]
    ∧ ((fun s => s == "5000/repo") (afterFirstColon "//localhost:5000/repo:v1")) = false
    ∧ filterByTagRegexSpec (fun s => s == "5000/repo") ["//localhost:5000/repo:v1"]
        = [] := by
  refine ⟨?_, ?_, ?_⟩ <;> decide

/-- C3 (amended): the resolved sequence is exactly the discovered
references whose second colon-separated field matches the regex, in
discovery order; this field equals the substring after the first `:`
whenever the reference string contains at most one colon (no registry
port). -/
theorem c3_regex_filter_amended :
    ∀ (m : String → Bool) (refs : List String),
      (filterByTagRegex m refs).Sublist refs
      ∧ (∀ r, r ∈ filterByTagRegex m refs ↔ r ∈ refs ∧ m (tagMatchField r) = true)
      ∧ (∀ s : String, colonCount s ≤ 1 → tagMatchField s = afterFirstColon s) := by
  intro m refs
  refine ⟨List.filter_sublist _, fun r => List.mem_filter, ?_⟩
  intro s h
  exact congrArg String.mk (getD_splitOnChar_eq_afterColon s.data h)

/-- Witness for C3: a port-free reference, on which the code field and the
claimed tag component agree. -/
theorem c3_regex_filter_witness :
    ("reg/repo:v1" ∈ filterByTagRegex (fun s => s == "v1") ["reg/repo:v1"]
      ↔ "reg/repo:v1" ∈ ["reg/repo:v1"]
        ∧ (fun s => s == "v1") (tagMatchField "reg/repo:v1") = true)
    ∧ tagMatchField "reg/repo:v1" = afterFirstColon "reg/repo:v1" :=
  ⟨(c3_regex_filter_amended (fun s => s == "v1") ["reg/repo:v1"]).2.1 "reg/repo:v1",
    (c3_regex_filter_amended (fun s => s == "v1") []).2.2 "reg/repo:v1" (by decide)⟩

/-- C4 (counterexample): an explicit tag list that is empty (all-scalar
vacuously) does not resolve to a sequence of its own length: the
`len(tagList) == 0` fallback enumerates the registry instead, so the
resolved sequence for the image has one element while the list has zero
valid scalar entries. -/
theorem c4_empty_list_counterexample :
    processImage envC4 "registryA" "repo1" (TagSpec.list [])
      = ImageOutcome.producedDesc ["//registryA/repo1:latest"]
    ∧ (["//registryA/repo1:latest"] : List String).length = 1
    ∧ (List.filterMap coerceVal ([] : List YamlVal)).length = 0 :=
  ⟨rfl, rfl, rfl⟩

/-- C4 (amended): for every non-empty explicit tag list of only scalar
values (with references parsing), the resolved sequence is the in-order
coercion of the list, so order is preserved and the length equals the
number of entries; and a non-scalar element is dropped individually
without disturbing resolution of the surrounding elements. -/
theorem c4_scalar_list_amended :
    ∀ (env : SyncEnv) (regName imgName : String) (l : List YamlVal),
      ¬ l = [] →
      (∀ v ∈ l, coerceVal v ≠ none) →
      (∀ s, env.parseRef s = true) →
      (processImage env regName imgName (TagSpec.list l)
          = ImageOutcome.producedDesc
              (l.map (fun v => repoNameOf regName imgName ++ ":" ++ (coerceVal v).getD ""))
        ∧ (l.map (fun v => repoNameOf regName imgName ++ ":" ++ (coerceVal v).getD "")).length
            = l.length)
      ∧ ∀ (xs ys : List YamlVal) (v : YamlVal), coerceVal v = none →
          List.filterMap coerceVal (xs ++ v :: ys)
            = List.filterMap coerceVal xs ++ List.filterMap coerceVal ys := by
  intro env regName imgName l hne hsc hp
  constructor
  · have htag : l.filterMap coerceVal = l.map (fun v => (coerceVal v).getD "") :=
      filterMap_eq_map_of_total coerceVal "" l hsc
    constructor
    · simp only [processImage, htag]
      rw [filterMap_eq_map_of_total _ "" _ (by intro t ht; simp [hp])]
      simp [hp, List.map_map, List.isEmpty_iff, hne, Function.comp]
    · simp [List.length_map]
  · intro xs ys v hv
    rw [List.filterMap_append, List.filterMap_cons, hv]

/-- Witness for C4: a concrete two-scalar list resolves in order to both
coerced tags. -/
theorem c4_scalar_list_witness :
    processImage envC4 "registryA" "repo1"
        (TagSpec.list [YamlVal.str "v1", YamlVal.intv 3])
      = ImageOutcome.producedDesc ["//registryA/repo1:v1", "//registryA/repo1:3"] := by
  have h := (c4_scalar_list_amended envC4 "registryA" "repo1"
    [YamlVal.str "v1", YamlVal.intv 3] (by decide)
    (by intro v hv; fin_cases hv <;> decide) (fun s => rfl)).1.1
  rw [h]
  decide

/-- C7 (counterexample): with nested markers the walk does descend below a
marker directory: in a tree with markers in `a` and `a/b`, the entry `b`
sorts before `manifest.json`, so the walk enters `a/b` first and yields a
reference strictly beneath the marker directory `a`. -/
theorem c7_nested_marker_counterexample :
    imagesToCopyFromDir [["a", "manifest.json"], ["a", "b", "manifest.json"]]
      = [["a", "b"], ["a"]]
    ∧ ["a"] ∈ markerDirsOf [["a", "manifest.json"], ["a", "b", "manifest.json"]]
    ∧ ["a", "b"] ∈ imagesToCopyFromDir [["a", "manifest.json"], ["a", "b", "manifest.json"]]
    ∧ (["a"] : FilePath0) <+: ["a", "b"]
    ∧ (["a", "b"] : FilePath0) = ["a"] ++ ["b"] := by
  have hs : sortPaths [["a", "manifest.json"], ["a", "b", "manifest.json"]]
      = [["a", "b", "manifest.json"], ["a", "manifest.json"]] := by decide
  have hw : walkFiles [["a", "b", "manifest.json"], ["a", "manifest.json"]]
      = [["a", "b"], ["a"]] := by
    simp [walkFiles, isMarkerFile, dirOf]
  have him : imagesToCopyFromDir [["a", "manifest.json"], ["a", "b", "manifest.json"]]
      = [["a", "b"], ["a"]] := by
    unfold imagesToCopyFromDir
    rw [hs, hw]
  refine ⟨him, by decide, by rw [him]; decide, by decide, by decide⟩

/-- C7 (amended): for every file tree in which no marker directory lies
strictly beneath another, the enumerator yields exactly one reference per
directory that directly contains a marker file and none strictly beneath
such a directory. -/
theorem c7_marker_walk_amended :
    ∀ (files : List FilePath0), NoNestedMarkers files →
      (∀ d, d ∈ imagesToCopyFromDir files ↔ d ∈ markerDirsOf files)
      ∧ (imagesToCopyFromDir files).Nodup
      ∧ ∀ d1 ∈ imagesToCopyFromDir files, ∀ d2 ∈ imagesToCopyFromDir files,
          d1 <+: d2 → d1 = d2 := by
  intro files hnn
  have hmd : (markerDirsOf (sortPaths files)).Perm (markerDirsOf files) :=
    ((sortPaths_perm files).filter _).map _
  have hnn2 : NoNestedMarkers (sortPaths files) := by
    intro d1 h1 d2 h2 hp
    exact hnn d1 (hmd.mem_iff.1 h1) d2 (hmd.mem_iff.1 h2) hp
  refine ⟨?_, walkFiles_nodup _, ?_⟩
  · intro d
    constructor
    · intro hd
      exact hmd.mem_iff.1 (walkFiles_sound _ d hd)
    · intro hd
      exact walkFiles_complete _ hnn2 d (hmd.mem_iff.2 hd)
  · intro d1 h1 d2 h2 hp
    exact hnn d1 (hmd.mem_iff.1 (walkFiles_sound _ _ h1))
      d2 (hmd.mem_iff.1 (walkFiles_sound _ _ h2)) hp

/-- Witness for C7: a two-image tree without nested markers yields exactly
its two marker directories. -/
theorem c7_marker_walk_witness :
    (["a"] ∈ imagesToCopyFromDir c7files ↔ ["a"] ∈ markerDirsOf c7files)
    ∧ (imagesToCopyFromDir c7files).Nodup :=
  ⟨(c7_marker_walk_amended c7files (by unfold NoNestedMarkers; decide)).1 ["a"],
    (c7_marker_walk_amended c7files (by unfold NoNestedMarkers; decide)).2.1⟩

end SkopeoSync
